import Mathlib

/-!
Verification of the `credible` secrets agent against its specification.

The development shallowly embeds the claim-relevant parts of the Rust
source:

* `src/age.rs` — recipient parsing, `encrypt_bytes`, `decrypt_bytes`
  (the age cipher itself is an external crate: it is modelled from the
  specification's interface contract, while all plumbing — recipient
  filtering, emptiness checks, the passphrase-header rejection — is
  translated from the source);
* `src/process/mod.rs` — `run_process` (temp dir, signal handlers, file
  and env materialisation order, spawn, select loop, teardown);
* `src/process/signals.rs` — the `kill` forwarding helper;
* `src/main.rs` — the exit-code mapping of `main` / `real_main`;
* `src/cli/state/builder.rs` — `StateBuilder::add_file_exposures` /
  `add_env_exposures` duplicate detection;
* `src/secret/exposures.rs` — `Exposures::add_config`;
* the generation-based mount controller (called from
  `src/cli/system.rs` but absent from the tree), modelled from the
  specification.

Bytes are modelled as `List Nat`, paths and names as `String`, maps as
total functions or association lists.
-/

namespace Credible

/-! ## Age crypto pipeline (`src/age.rs`) -/

/-- Input strings offered as recipients.  The age crate's two public-key
parsers are external; a string is abstracted by which parser accepts it:
an `x25519` public key, an `ssh` public key, or a string neither parser
accepts (`invalid`). -/
inductive RecipientString
  | x25519 (k : Nat)
  | ssh (k : Nat)
  | invalid (tag : Nat)
  deriving DecidableEq, Repr

/-- Parsed public encryption keys (`Box<dyn Recipient>` values). -/
inductive RecipientKey
  | x25519 (k : Nat)
  | ssh (k : Nat)
  deriving DecidableEq, Repr

/-- Decryption identities (`Box<dyn Identity>` values); a private key is
paired with the public key carrying the same label. -/
inductive IdentityKey
  | x25519 (k : Nat)
  | ssh (k : Nat)
  deriving DecidableEq, Repr

/-- Errors of `EncryptionError` in `src/age.rs` (variants that the
modelled operations can produce). -/
inductive EncryptionError
  | NoRecipientsFound
  | InvalidRecipients
  deriving DecidableEq, Repr

/-- Errors of `DecryptionError` in `src/age.rs`. -/
inductive DecryptionError
  | ReadingArmoredSecret
  | DecryptingSecret
  | PassphraseEncryptedFile
  deriving DecidableEq, Repr

/-- Modelled from the spec: an age ciphertext, as the decryptor in
`decrypt_bytes` classifies it — its header either advertises passphrase
encryption (`Decryptor::Passphrase`) or carries recipient stanzas
(`Decryptor::Recipients`); the sealed payload decrypts to the original
plaintext for a matching identity.  The age crate implementing this is
external to the repository. -/
inductive AgeCiphertext
  | passphrase (payload : List Nat)
  | recipients (rs : List RecipientKey) (payload : List Nat)
  deriving DecidableEq, Repr

/-- Embeds `parse_recipient` (src/age.rs:142-150): try the x25519
parser, then the ssh parser, otherwise `InvalidRecipients`. -/
def parse_recipient : RecipientString → Except EncryptionError RecipientKey
  | .x25519 k => .ok (.x25519 k)
  | .ssh k => .ok (.ssh k)
  | .invalid _ => .error .InvalidRecipients

/-- Embeds the recipient collection step of `encrypt_bytes`
(src/age.rs:107-110): `filter_map(|key| parse_recipient(key).ok())`. -/
def collectRecipients (public_keys : List RecipientString) : List RecipientKey :=
  public_keys.filterMap fun key => (parse_recipient key).toOption

/-- Embeds `encrypt_bytes` (src/age.rs:92-138).  The byte pipe and the
background copy task are collapsed: the value returned here is the
ciphertext obtained after the returned reader is drained and the join
handle is awaited.  Unparseable keys are dropped by `filter_map`; an
empty surviving recipient list fails with `NoRecipientsFound`. -/
def encrypt_bytes (reader : List Nat) (public_keys : List RecipientString) :
    Except EncryptionError AgeCiphertext :=
  let recipients := collectRecipients public_keys
  if recipients.isEmpty then
    .error .NoRecipientsFound
  else
    .ok (.recipients recipients reader)

/-- Decides whether an identity unwraps the stanza of a recipient key:
the private key with the same label and encoding. -/
def identityMatches (i : IdentityKey) (r : RecipientKey) : Bool :=
  match i, r with
  | .x25519 a, .x25519 b => a == b
  | .ssh a, .ssh b => a == b
  | _, _ => false

/-- Embeds `decrypt_bytes` (src/age.rs:68-90): a passphrase header is
rejected with `PassphraseEncryptedFile` before any identity is consulted;
otherwise `decrypt_async` succeeds exactly when some supplied identity
matches some recipient stanza, else `DecryptingSecret`. -/
def decrypt_bytes (ct : AgeCiphertext) (identities : List IdentityKey) :
    Except DecryptionError (List Nat) :=
  match ct with
  | .passphrase _ => .error .PassphraseEncryptedFile
  | .recipients rs payload =>
    if identities.any (fun i => rs.any (identityMatches i)) then
      .ok payload
    else
      .error .DecryptingSecret

/-- Holds when a recipient string is accepted by one of the two parsers. -/
def parses (s : RecipientString) : Bool :=
  (parse_recipient s).toOption.isSome

/-! ## Configuration data model (`src/secret/mod.rs`, `src/secret/exposures.rs`) -/

/-- Embeds `Secret` (src/secret/mod.rs:22-37).  Owners and groups are
abstracted to numeric ids, paths to strings. -/
structure Secret where
  name : String
  encryption_keys : List RecipientString
  path : String
  mount_path : Option String := none
  owner_user : Option Nat := none
  owner_group : Option Nat := none
  deriving DecidableEq, Repr

/-- Embeds `FileExposeArgs` (src/secret/exposures.rs:68-74). -/
structure FileExposeArgs where
  vanity_path : Option String
  mode : Option Nat := none
  owner : Option Nat := none
  group : Option Nat := none
  deriving DecidableEq, Repr

/-- Embeds `EnvExposeArgs` (src/secret/exposures.rs:76-79). -/
structure EnvExposeArgs where
  name : String
  deriving DecidableEq, Repr

/-- Embeds `ExposureSpec` (src/secret/exposures.rs:7-14). -/
inductive ExposureSpec
  | File (args : FileExposeArgs)
  | Env (args : EnvExposeArgs)
  deriving DecidableEq, Repr

/-- Embeds `Exposures` (src/secret/exposures.rs:81-85): two mappings
keyed by secret name.  A `HashMap<String, Vec<_>>` is modelled as a
total function defaulting to the empty list; `Vec::push` appends at the
tail of the keyed list. -/
structure Exposures where
  files : String → List FileExposeArgs
  envs : String → List EnvExposeArgs

/-- Exposures value with no entry for any secret (`Exposures::default`). -/
def Exposures.empty : Exposures :=
  { files := fun _ => [], envs := fun _ => [] }

/-- Pushes one spec under one secret name — the body of the inner loop
of `Exposures::add_config` (src/secret/exposures.rs:90-110). -/
def Exposures.addSpec (e : Exposures) (name : String) : ExposureSpec → Exposures
  | .Env a =>
    { e with envs := fun k => if k = name then e.envs k ++ [a] else e.envs k }
  | .File a =>
    { e with files := fun k => if k = name then e.files k ++ [a] else e.files k }

/-- Embeds `Exposures::add_config` (src/secret/exposures.rs:87-113):
for each `(name, specs)` pair of the input, push each spec into the
mapping matching its variant. -/
def Exposures.add_config (e : Exposures) (config : List (String × List ExposureSpec)) :
    Exposures :=
  config.foldl (fun acc p => p.2.foldl (fun acc2 spec => acc2.addSpec p.1 spec) acc) e

/-- File payloads of a spec list, in order. -/
def specFiles (specs : List ExposureSpec) : List FileExposeArgs :=
  specs.filterMap fun s => match s with | .File a => some a | .Env _ => none

/-- Env payloads of a spec list, in order. -/
def specEnvs (specs : List ExposureSpec) : List EnvExposeArgs :=
  specs.filterMap fun s => match s with | .Env a => some a | .File _ => none

/-! ## Exposure builder (`src/cli/state/builder.rs`) -/

/-- Embeds `StateBuilderError` (src/cli/state/builder.rs:10-30). -/
inductive StateBuilderError
  | ReadingConfigFile
  | ParsingConfigFile
  | DuplicatePath (p : String)
  | DuplicateEnvName (n : String)
  | StorageUnset
  | DuplicateStorageConfig
  | SettingUpStorage
  deriving DecidableEq, Repr

/-- The builder fields the duplicate checks touch
(src/cli/state/builder.rs:44-55): the two seen-sets (modelled as lists
with set membership) and the accumulated exposure lists.  The
accumulation step (`Exposures::add_files` / `add_envs`) is declared by
the builder but absent from the tree; per the spec (§4.4, finalization)
it appends the batch to the collected exposures. -/
structure StateBuilder where
  seen_env_vars : List String
  seen_file_paths : List String
  collected_files : List FileExposeArgs
  collected_envs : List EnvExposeArgs
  deriving DecidableEq, Repr

/-- Builder with empty seen-sets and no exposures (`Default`). -/
def StateBuilder.empty : StateBuilder :=
  { seen_env_vars := [], seen_file_paths := [], collected_files := [], collected_envs := [] }

/-- The loop of `StateBuilder::add_file_exposures`
(src/cli/state/builder.rs:147-159): for each exposure carrying a
`vanity_path`, `HashSet::insert` reports whether the path is new; a
repeat fails with `DuplicatePath` at once. -/
def insertFilePaths (seen : List String) :
    List FileExposeArgs → Except StateBuilderError (List String)
  | [] => .ok seen
  | e :: rest =>
    match e.vanity_path with
    | some p =>
      if p ∈ seen then .error (.DuplicatePath p)
      else insertFilePaths (p :: seen) rest
    | none => insertFilePaths seen rest

/-- Embeds `StateBuilder::add_file_exposures`
(src/cli/state/builder.rs:143-163): on success every processed item is
handed to the exposure accumulator. -/
def StateBuilder.add_file_exposures (st : StateBuilder) (args : List FileExposeArgs) :
    Except StateBuilderError StateBuilder :=
  match insertFilePaths st.seen_file_paths args with
  | .error e => .error e
  | .ok seen => .ok { st with seen_file_paths := seen,
                              collected_files := st.collected_files ++ args }

/-- The loop of `StateBuilder::add_env_exposures`
(src/cli/state/builder.rs:169-177). -/
def insertEnvNames (seen : List String) :
    List EnvExposeArgs → Except StateBuilderError (List String)
  | [] => .ok seen
  | e :: rest =>
    if e.name ∈ seen then .error (.DuplicateEnvName e.name)
    else insertEnvNames (e.name :: seen) rest

/-- Embeds `StateBuilder::add_env_exposures`
(src/cli/state/builder.rs:165-180). -/
def StateBuilder.add_env_exposures (st : StateBuilder) (args : List EnvExposeArgs) :
    Except StateBuilderError StateBuilder :=
  match insertEnvNames st.seen_env_vars args with
  | .error e => .error e
  | .ok seen => .ok { st with seen_env_vars := seen,
                              collected_envs := st.collected_envs ++ args }

/-- One batch of exposure input handed to the builder: a config file's
or CLI flag set's file specs, or its env specs. -/
inductive ExposureBatch
  | files (l : List FileExposeArgs)
  | envs (l : List EnvExposeArgs)
  deriving DecidableEq, Repr

/-- Feeds a sequence of batches to the builder in order, as composing
config files with CLI flags does; the first duplicate aborts. -/
def StateBuilder.addBatches (st : StateBuilder) :
    List ExposureBatch → Except StateBuilderError StateBuilder
  | [] => .ok st
  | .files l :: rest =>
    match st.add_file_exposures l with
    | .error e => .error e
    | .ok st' => st'.addBatches rest
  | .envs l :: rest =>
    match st.add_env_exposures l with
    | .error e => .error e
    | .ok st' => st'.addBatches rest

/-- All non-null vanity paths carried by the File specs of a batch list. -/
def batchVanityPaths (bs : List ExposureBatch) : List String :=
  bs.flatMap fun b =>
    match b with
    | .files l => l.filterMap (·.vanity_path)
    | .envs _ => []

/-- All env names carried by the Env specs of a batch list. -/
def batchEnvNames (bs : List ExposureBatch) : List String :=
  bs.flatMap fun b =>
    match b with
    | .files _ => []
    | .envs l => l.map (·.name)

/-! ## Child runner (`src/process/mod.rs`, `src/process/error.rs`) -/

/-- Embeds `ProcessRunningError` (src/process/error.rs:4-46).  Wrapped
io payloads are dropped; variants carrying a name keep it. -/
inductive ProcessRunningError
  | ReadingMountConfigFiles
  | DecodingMountConfigFiles
  | SecretDecryptionFailure (e : DecryptionError)
  | EmptyCommand
  | CreatingTempDir
  | ChmoddingTempDir
  | CreatingTempFile
  | CreatingSymlink
  | DeletingSymlink
  | FetchingSecretsErr
  | NotValidUTF8 (name : String)
  | ForkingProcess
  | JoiningProcess
  | NoSuchSecret (name : String)
  | CreatingDataPipe
  | WritingToFile
  | CreatingSignalHandlers
  | SignallingChildProcess
  deriving DecidableEq, Repr

/-- Observable steps of one `run_process` invocation, in program order. -/
inductive PEvent
  | createTempDir
  | installSignalHandlers
  | fetchSecret (path : String)
  | writeFile (secretName : String)
  | createSymlink (vanity : String)
  | setEnv (envName : String)
  | spawn
  | childExited (status : Nat)
  | removeTempDir
  | removeSymlink (vanity : String)
  deriving DecidableEq, Repr

/-- Continuation byte of a UTF-8 sequence: `0x80..0xBF`. -/
def isUtf8Cont (b : Nat) : Bool :=
  0x80 ≤ b && b ≤ 0xBF

/-- Modelled from the spec: UTF-8 validity of a byte sequence (RFC
3629), the check `read_to_string` applies when the decrypted plaintext
is collected into a `String`; the codec is external to the repository. -/
def utf8Valid : List Nat → Bool
  | [] => true
  | b :: rest =>
    if b ≤ 0x7F then
      utf8Valid rest
    else if 0xC2 ≤ b && b ≤ 0xDF then
      match rest with
      | c :: r => isUtf8Cont c && utf8Valid r
      | [] => false
    else if b = 0xE0 then
      match rest with
      | c1 :: c2 :: r => (0xA0 ≤ c1 && c1 ≤ 0xBF) && isUtf8Cont c2 && utf8Valid r
      | _ => false
    else if (0xE1 ≤ b && b ≤ 0xEC) || b = 0xEE || b = 0xEF then
      match rest with
      | c1 :: c2 :: r => isUtf8Cont c1 && isUtf8Cont c2 && utf8Valid r
      | _ => false
    else if b = 0xED then
      match rest with
      | c1 :: c2 :: r => (0x80 ≤ c1 && c1 ≤ 0x9F) && isUtf8Cont c2 && utf8Valid r
      | _ => false
    else if b = 0xF0 then
      match rest with
      | c1 :: c2 :: c3 :: r =>
        (0x90 ≤ c1 && c1 ≤ 0xBF) && isUtf8Cont c2 && isUtf8Cont c3 && utf8Valid r
      | _ => false
    else if 0xF1 ≤ b && b ≤ 0xF3 then
      match rest with
      | c1 :: c2 :: c3 :: r =>
        isUtf8Cont c1 && isUtf8Cont c2 && isUtf8Cont c3 && utf8Valid r
      | _ => false
    else if b = 0xF4 then
      match rest with
      | c1 :: c2 :: c3 :: r =>
        (0x80 ≤ c1 && c1 ≤ 0x8F) && isUtf8Cont c2 && isUtf8Cont c3 && utf8Valid r
      | _ => false
    else false

/-- Secret lookup against the `HashMap<String, &Secret>` handed to
`run_process` (src/process/mod.rs:56-58, 94-96). -/
def lookupSecret (secrets : List (String × Secret)) (name : String) : Option Secret :=
  (secrets.find? fun p => p.1 == name).map (·.2)

/-- One exposure's fetch-and-decrypt: `backing.read(&secret.path)`
followed by `decrypt_bytes(reader, identities)`
(src/process/mod.rs:60-61, 98-99).  A storage failure converts to
`FetchingSecretsErr` (src/process/mod.rs:150-154); a decrypt failure to
`SecretDecryptionFailure` via `#[from]`. -/
def fetchDecrypt (storage : String → Option AgeCiphertext) (identities : List IdentityKey)
    (s : Secret) : Except ProcessRunningError (List Nat) :=
  match storage s.path with
  | none => .error .FetchingSecretsErr
  | some ct =>
    match decrypt_bytes ct identities with
    | .error e => .error (.SecretDecryptionFailure e)
    | .ok bytes => .ok bytes

/-- Events of the inner loop over one secret's File specs
(src/process/mod.rs:67-88): write the destination file, then create the
vanity symlink.  `process/mod.rs:83` reads a required `file_spec.path`
while the exposures module declares `vanity_path` as optional
(src/secret/exposures.rs:70); the symlink step is taken for a present
vanity path. -/
def fileSpecEvents (secretName : String) (specs : List FileExposeArgs) : List PEvent :=
  specs.flatMap fun sp =>
    .writeFile secretName ::
      (match sp.vanity_path with
       | some p => [.createSymlink p]
       | none => [])

/-- The file-materialisation loop of `run_process`
(src/process/mod.rs:52-89): first failure aborts; the pair carries the
failure (if any) and the events performed. -/
def runFiles (secrets : List (String × Secret)) (identities : List IdentityKey)
    (storage : String → Option AgeCiphertext) :
    List (String × List FileExposeArgs) → Option ProcessRunningError × List PEvent
  | [] => (none, [])
  | (name, specs) :: rest =>
    match lookupSecret secrets name with
    | none => (some (.NoSuchSecret name), [])
    | some s =>
      match fetchDecrypt storage identities s with
      | .error e => (some e, [.fetchSecret s.path])
      | .ok _ =>
        let next := runFiles secrets identities storage rest
        (next.1, .fetchSecret s.path :: (fileSpecEvents s.name specs ++ next.2))

/-- The env-materialisation loop of `run_process`
(src/process/mod.rs:91-109): the decrypted bytes are collected with
`read_to_string`, whose invalid-UTF-8 failure the loop maps to
`FetchingSecretsErr` (src/process/mod.rs:100-103); each spec then sets
`env[spec.name]`. -/
def runEnvs (secrets : List (String × Secret)) (identities : List IdentityKey)
    (storage : String → Option AgeCiphertext) :
    List (String × List EnvExposeArgs) → Option ProcessRunningError × List PEvent
  | [] => (none, [])
  | (name, specs) :: rest =>
    match lookupSecret secrets name with
    | none => (some (.NoSuchSecret name), [])
    | some s =>
      match fetchDecrypt storage identities s with
      | .error e => (some e, [.fetchSecret s.path])
      | .ok bytes =>
        if utf8Valid bytes then
          let next := runEnvs secrets identities storage rest
          (next.1, .fetchSecret s.path :: (specs.map (fun sp => .setEnv sp.name) ++ next.2))
        else
          (some .FetchingSecretsErr, [.fetchSecret s.path])

/-- Vanity symlinks removed after child exit (src/process/mod.rs:132-145). -/
def cleanupEvents (files : List (String × List FileExposeArgs)) : List PEvent :=
  files.flatMap fun p => p.2.filterMap fun sp => sp.vanity_path.map PEvent.removeSymlink

/-- Embeds `run_process` (src/process/mod.rs:21-148): empty argv fails;
a temp dir is created and signal handlers installed; files are
materialised, then env vars; the child is spawned and awaited (signal
forwarding aside, it exits with `childStatus`); the temp dir is dropped
and vanity symlinks removed.  Returns the result together with the
events performed. -/
def runProcess (argv : List String) (secrets : List (String × Secret))
    (files : List (String × List FileExposeArgs))
    (envs : List (String × List EnvExposeArgs))
    (identities : List IdentityKey) (storage : String → Option AgeCiphertext)
    (childStatus : Nat) : Except ProcessRunningError Nat × List PEvent :=
  match argv with
  | [] => (.error .EmptyCommand, [])
  | _ :: _ =>
    let pre : List PEvent := [.createTempDir, .installSignalHandlers]
    match runFiles secrets identities storage files with
    | (some e, evs) => (.error e, pre ++ evs)
    | (none, fevs) =>
      match runEnvs secrets identities storage envs with
      | (some e, evs) => (.error e, pre ++ fevs ++ evs)
      | (none, eevs) =>
        (.ok childStatus,
         pre ++ fevs ++ eevs ++
           ([.spawn, .childExited childStatus, .removeTempDir] ++ cleanupEvents files))

/-- Detects a file-write event. -/
def isWriteFile : PEvent → Bool
  | .writeFile _ => true
  | _ => false

/-- Detects an env-injection event. -/
def isSetEnv : PEvent → Bool
  | .setEnv _ => true
  | _ => false

/-- Detects the spawn event. -/
def isSpawn : PEvent → Bool
  | .spawn => true
  | _ => false

/-- Every `p` event of the trace occurs strictly before every `q` event. -/
def eventsOrdered (t : List PEvent) (p q : PEvent → Bool) : Prop :=
  ∀ i j, (hi : i < t.length) → (hj : j < t.length) →
    p (t.get ⟨i, hi⟩) = true → q (t.get ⟨j, hj⟩) = true → i < j

/-! ## Signal forwarding (`src/process/signals.rs`) -/

/-- Embeds `kill` (src/process/signals.rs:45-53): the argv handed to the
spawned command is `kill {signal} {pid}` — the numeric signal as a bare
first operand, the pid second. -/
def kill_argv (pid : Nat) (signal : Nat) : List String :=
  ["kill", toString signal, toString pid]

/-- Numeric value of one decimal digit character, if it is one. -/
def charDigit? (c : Char) : Option Nat :=
  let n := c.toNat
  if 48 ≤ n && n ≤ 57 then some (n - 48) else none

/-- Numeric value of a decimal operand (its character list). -/
def digitsVal (cs : List Char) : Option Nat :=
  cs.foldl
    (fun acc c =>
      match acc, charDigit? c with
      | some a, some d => some (a * 10 + d)
      | _, _ => none)
    (some 0)

/-- Modelled from the spec: the OS kill facility (the POSIX `kill`
utility, external to the repository) invoked with the given argv — an
operand starting with `-` selects the signal to send, otherwise the
default TERM (15) is sent; every remaining operand is a process id the
signal is delivered to.  Returns the (pid, signal) deliveries. -/
def killUtilityDelivers : List String → List (Nat × Nat)
  | _util :: first :: rest =>
    match first.data with
    | '-' :: sigDigits =>
      rest.map fun p => ((digitsVal p.data).getD 0, (digitsVal sigDigits).getD 0)
    | _ =>
      (first :: rest).map fun p => ((digitsVal p.data).getD 0, 15)
  | _ => []

/-! ## Top-level exit codes (`src/main.rs`) -/

/-- Embeds `MainError` (src/main.rs:150-170). -/
inductive MainError
  | ParsingCliArgs
  | NoConfigFile
  | ReadingConfigFile
  | ParsingConfigFile
  | MountingSecrets
  | UnmountingSecrets
  | RunningProcess (e : ProcessRunningError)
  | UploadingSecret
  | EditingSecret
  deriving DecidableEq, Repr

/-- Embeds the `Actions::RunCommand` arm of `real_main`
(src/main.rs:209-231): the `?` propagates a failure into `MainError`;
the child's `ExitStatus` produced by `cli::process::run` is discarded
and `real_main` ends with `Ok(())`. -/
def real_main_run_command (r : Except ProcessRunningError Nat) : Except MainError Unit :=
  match r with
  | .error e => .error (.RunningProcess e)
  | .ok _ => .ok ()

/-- Embeds the exit-code mapping of `main` (src/main.rs:234-249):
`Ok -> 0`, any error -> 1. -/
def main_exit_code (r : Except MainError Unit) : Nat :=
  match r with
  | .ok _ => 0
  | .error _ => 1

/-! ## Generation-based mount controller -/

/-- Embeds `MountSecretsError` (src/system/error.rs:9-40). -/
inductive MountSecretsError
  | AlreadyMounted
  | MountCheckFailure
  | RamfsCreationFailure
  | ReadFromStoreFailure
  | DecryptingSecretFailure
  | PermissionSettingFailure
  | CreatingFilesFailure
  | WritingToFileFailure
  | DataPipeError
  | SymlinkCreationFailure
  | NoSuchSecretName (n : String)
  | ExposingFilesFailure
  | UnmountingOldGeneration
  deriving DecidableEq, Repr

/-- One child directory of the mount base: its ms-since-boot name and
whether an in-RAM filesystem is mounted on it. -/
structure GenerationDir where
  name : Nat
  mounted : Bool
  deriving DecidableEq, Repr

/-- Mount-relevant filesystem state: the children of the base directory
and the target of the stable symlink (a generation name), if any. -/
structure MountState where
  generations : List GenerationDir
  stable : Option Nat
  deriving DecidableEq, Repr

/-- Modelled from the spec: the generation-based `system::mount(base,
stable_dir, secrets, file_exposures, identities, store)` that
`cli::system::mount` (src/cli/system.rs:32-40) calls is absent from the
tree (only its callers and its error variants exist).  Spec §4.8: (1-2)
a generation named by the monotonic clock is refused if already a mount
point; (3) the directory is created if missing; (4) a fresh in-RAM
filesystem is mounted there; (5) files are materialised into it (which
does not change this state); (6) the stable symlink is swapped to the
new generation; (7) every other child of the base is unmounted and
removed. -/
def system_mount (st : MountState) (clock_ms : Nat) : Except MountSecretsError MountState :=
  if st.generations.any fun g => g.name == clock_ms && g.mounted then
    .error .AlreadyMounted
  else
    let created :=
      if st.generations.any fun g => g.name == clock_ms then st.generations
      else st.generations ++ [{ name := clock_ms, mounted := false }]
    let afterMount :=
      created.map fun g => if g.name == clock_ms then { g with mounted := true } else g
    .ok { generations := afterMount.filter fun g => g.name == clock_ms,
          stable := some clock_ms }

/-! ## Concrete fixtures used by witnesses and counterexamples -/

/-- Two configured secrets: a certificate and a database password. -/
def sampleSecrets : List (String × Secret) :=
  [("cert", { name := "cert", encryption_keys := [.x25519 1], path := "k1" }),
   ("db", { name := "db", encryption_keys := [.x25519 1], path := "k2" })]

/-- One File exposure of the certificate with a vanity path. -/
def sampleFiles : List (String × List FileExposeArgs) :=
  [("cert", [{ vanity_path := some "/tmp/mycert" }])]

/-- One Env exposure of the database password. -/
def sampleEnvs : List (String × List EnvExposeArgs) :=
  [("db", [{ name := "DB_PASS" }])]

/-- The single identity unlocking the sample store. -/
def sampleIdentities : List IdentityKey :=
  [.x25519 1]

/-- Store contents: both sample secrets decrypt under `sampleIdentities`
to ASCII plaintexts. -/
def sampleStorage : String → Option AgeCiphertext := fun p =>
  if p = "k1" then some (.recipients [.x25519 1] [65])
  else if p = "k2" then some (.recipients [.x25519 1] [66])
  else none

/-- Store contents whose `db` secret decrypts to the byte `0xFF`, which
no UTF-8 sequence contains. -/
def badUtf8Storage : String → Option AgeCiphertext := fun p =>
  if p = "k1" then some (.recipients [.x25519 1] [65])
  else if p = "k2" then some (.recipients [.x25519 1] [255])
  else none

/-- Event trace of a sample `run-command` with one file and one env
exposure. -/
def sampleTrace : List PEvent :=
  (runProcess ["sh"] sampleSecrets sampleFiles sampleEnvs sampleIdentities sampleStorage 0).2

end Credible

namespace Credible

/-! ### Claim theorems about the crypto pipeline -/

/-- C1: for every plaintext `P`, recipient list `R` containing at least
one string that parses as an age x25519 or ssh public key, and identity
list `I` holding a private key matching one of the parsed recipients,
decrypting the output of `encrypt_bytes P R` with `decrypt_bytes · I`
yields exactly `P`. -/
theorem c1_encrypt_decrypt_roundtrip
    (P : List Nat) (R : List RecipientString) (I : List IdentityKey)
    (hR : ∃ s ∈ R, parses s = true)
    (hI : ∃ i ∈ I, ∃ r ∈ collectRecipients R, identityMatches i r = true) :
    ∃ ct, encrypt_bytes P R = .ok ct ∧ decrypt_bytes ct I = .ok P := by
  obtain ⟨s, hsR, hs⟩ := hR
  have hne : collectRecipients R ≠ [] := by
    intro hnil
    have : (parse_recipient s).toOption.isSome = true := hs
    obtain ⟨r, hr⟩ := Option.isSome_iff_exists.mp this
    have hmem : r ∈ collectRecipients R :=
      List.mem_filterMap.mpr ⟨s, hsR, hr⟩
    simp [hnil] at hmem
  have hempty : (collectRecipients R).isEmpty = false := by
    cases h : collectRecipients R with
    | nil => exact absurd h hne
    | cons a l => simp [List.isEmpty]
  refine ⟨.recipients (collectRecipients R) P, ?_, ?_⟩
  · unfold encrypt_bytes
    simp [hempty]
  · obtain ⟨i, hiI, r, hrR, hmatch⟩ := hI
    unfold decrypt_bytes
    have hany : I.any (fun i => (collectRecipients R).any (identityMatches i)) = true := by
      rw [List.any_eq_true]
      exact ⟨i, hiI, List.any_eq_true.mpr ⟨r, hrR, hmatch⟩⟩
    simp [hany]

/-- Witness for C1 at a concrete input: plaintext `[104, 105]`, one
valid x25519 recipient among garbage, and the matching identity. -/
theorem c1_encrypt_decrypt_roundtrip_witness :
    ∃ ct,
      encrypt_bytes [104, 105] [.invalid 0, .x25519 7] = .ok ct ∧
      decrypt_bytes ct [.x25519 7] = .ok [104, 105] :=
  c1_encrypt_decrypt_roundtrip [104, 105] [.invalid 0, .x25519 7] [.x25519 7]
    ⟨.x25519 7, by decide, by decide⟩
    ⟨.x25519 7, by decide, .x25519 7, by decide, by decide⟩

/-- C7: for every ciphertext whose age header advertises passphrase
encryption, `decrypt_bytes` fails with `PassphraseEncryptedFile` and
yields no plaintext, regardless of the identities supplied. -/
theorem c7_passphrase_rejected (payload : List Nat) (identities : List IdentityKey) :
    decrypt_bytes (.passphrase payload) identities = .error .PassphraseEncryptedFile := by
  rfl

end Credible

namespace Credible

/-! ### Crypto filtering, exit codes, signal forwarding, mount purge -/

/-- Branch-level reading of `encrypt_bytes`: the emptiness test is on
the surviving recipient list. -/
theorem encrypt_bytes_eq (P : List Nat) (keys : List RecipientString) :
    encrypt_bytes P keys =
      if collectRecipients keys = [] then .error .NoRecipientsFound
      else .ok (.recipients (collectRecipients keys) P) := by
  unfold encrypt_bytes
  rcases h : collectRecipients keys with _ | ⟨r, rs⟩ <;> simp [h]

/-- C10: any recipient string that parses as neither an age x25519 nor
an ssh public key is silently discarded by `encrypt_bytes`; the call
fails with `NoRecipientsFound` iff no string in the list parses; and
encryption can succeed while targeting only a strict non-empty subset
of the configured recipient strings. -/
theorem c10_recipient_filtering (P : List Nat) (keys : List RecipientString) :
    (encrypt_bytes P keys = .error .NoRecipientsFound ↔ ∀ s ∈ keys, parses s = false) ∧
    (∀ ct, encrypt_bytes P keys = .ok ct →
      ct = .recipients (collectRecipients keys) P ∧ collectRecipients keys ≠ []) ∧
    (∃ ct, encrypt_bytes [0] [.x25519 1, .invalid 2] = .ok ct ∧
      ct = .recipients [.x25519 1] [0] ∧
      ([RecipientKey.x25519 1] : List RecipientKey).length <
        ([RecipientString.x25519 1, .invalid 2] : List RecipientString).length) := by
  have helem : ∀ s : RecipientString,
      ((parse_recipient s).toOption = none ↔ parses s = false) := by
    intro s
    cases s <;> simp [parses, parse_recipient, Except.toOption]
  have hnil : (collectRecipients keys = []) ↔ ∀ s ∈ keys, parses s = false := by
    unfold collectRecipients
    rw [List.filterMap_eq_nil_iff]
    exact ⟨fun h s hs => (helem s).mp (h s hs), fun h s hs => (helem s).mpr (h s hs)⟩
  refine ⟨?_, ?_, ?_⟩
  · rw [encrypt_bytes_eq]
    by_cases hc : collectRecipients keys = []
    · rw [if_pos hc]
      exact ⟨fun _ => hnil.mp hc, fun _ => rfl⟩
    · rw [if_neg hc]
      constructor
      · intro h
        exact absurd h (by simp)
      · intro hall
        exact absurd (hnil.mpr hall) hc
  · intro ct h
    rw [encrypt_bytes_eq] at h
    by_cases hc : collectRecipients keys = []
    · rw [if_pos hc] at h
      exact Except.noConfusion h
    · rw [if_neg hc, Except.ok.injEq] at h
      exact ⟨h.symm, hc⟩
  · exact ⟨.recipients [.x25519 1] [0], rfl, rfl, by decide⟩

/-- Witness for C10: a list with no parseable string fails with
`NoRecipientsFound`, by the theorem's first component. -/
theorem c10_recipient_filtering_witness :
    encrypt_bytes [0] [RecipientString.invalid 3] = .error .NoRecipientsFound :=
  (c10_recipient_filtering [0] [.invalid 3]).1.mpr (by decide)

/-- C2: evaluating the embedded exit-code path at the failing input —
the child exits 7, `run_process` returns that status, yet `real_main`
discards it (src/main.rs:209-231) and `main` exits 0; an internal
error still exits 1. -/
theorem c2_exit_code_not_passed_through :
    (runProcess ["sh"] sampleSecrets sampleFiles sampleEnvs sampleIdentities
        sampleStorage 7).1 = .ok 7 ∧
    main_exit_code (real_main_run_command
        (runProcess ["sh"] sampleSecrets sampleFiles sampleEnvs sampleIdentities
          sampleStorage 7).1) = 0 ∧
    main_exit_code (real_main_run_command (.error (.NoSuchSecret "db"))) = 1 :=
  ⟨rfl, rfl, rfl⟩

/-- C6: evaluating the embedded signal forwarding at the failing input —
on receiving signal 2 (SIGINT) with child pid 1234, the agent invokes
`kill 2 1234` (src/process/signals.rs:45-53), which the kill utility
reads as two pid operands for the default TERM (15); the pair
`(1234, 2)` demanded by the claim is not among the deliveries. -/
theorem c6_kill_signal_read_as_pid :
    kill_argv 1234 2 = ["kill", "2", "1234"] ∧
    killUtilityDelivers (kill_argv 1234 2) = [(2, 15), (1234, 15)] ∧
    (1234, 2) ∉ killUtilityDelivers (kill_argv 1234 2) :=
  ⟨rfl, by decide, by decide⟩

/-- C3: after a successful `system_mount`, the stable symlink points to
the fresh generation and it is the only generation left under the base —
every other generation directory has been unmounted and removed. -/
theorem c3_mount_purges_old_generations (st : MountState) (clock : Nat) (st' : MountState)
    (h : system_mount st clock = .ok st') :
    st'.stable = some clock ∧
    ∀ g ∈ st'.generations, g.name = clock ∧ g.mounted = true := by
  unfold system_mount at h
  by_cases hb : (st.generations.any fun g => g.name == clock && g.mounted) = true
  · rw [if_pos hb] at h
    exact absurd h (by simp)
  · rw [if_neg hb] at h
    rw [Except.ok.injEq] at h
    subst h
    refine ⟨rfl, ?_⟩
    intro g hg
    rw [List.mem_filter] at hg
    obtain ⟨hmem, hname⟩ := hg
    have hname' : g.name = clock := beq_iff_eq.mp hname
    refine ⟨hname', ?_⟩
    rw [List.mem_map] at hmem
    obtain ⟨g0, _, hEq⟩ := hmem
    by_cases hc : (g0.name == clock) = true
    · rw [if_pos hc] at hEq
      rw [← hEq]
    · rw [if_neg hc] at hEq
      subst hEq
      exact absurd hname hc

/-- Witness for C3: mounting generation 250 over a state holding a
mounted generation 100 and a stale directory 50 leaves only generation
250, mounted, with the stable symlink on it. -/
theorem c3_mount_purges_old_generations_witness :
    (MountState.mk [⟨250, true⟩] (some 250)).stable = some 250 ∧
    ∀ g ∈ (MountState.mk [⟨250, true⟩] (some 250)).generations,
      g.name = 250 ∧ g.mounted = true :=
  c3_mount_purges_old_generations
    { generations := [⟨100, true⟩, ⟨50, false⟩], stable := some 100 } 250
    { generations := [⟨250, true⟩], stable := some 250 } rfl

end Credible

namespace Credible

/-! ### Event-trace lemmas for the child runner -/

/-- Orderedness is vacuous when no `q` event occurs. -/
theorem ordered_of_no_q (t : List PEvent) (p q : PEvent → Bool)
    (h : ∀ e ∈ t, q e = false) : eventsOrdered t p q := by
  intro i j hi hj hp hq
  have hf := h _ (List.get_mem t j hj)
  rw [hf] at hq
  exact Bool.noConfusion hq

/-- Every `p` event sits in the left part and every `q` event in the
right part, so `p` events precede `q` events. -/
theorem ordered_of_append (p q : PEvent → Bool) (a b : List PEvent)
    (ha : ∀ e ∈ a, q e = false) (hb : ∀ e ∈ b, p e = false) :
    eventsOrdered (a ++ b) p q := by
  intro i j hi hj hp hq
  have hi' : i < a.length + b.length := by
    rw [← List.length_append]; exact hi
  have hj' : j < a.length + b.length := by
    rw [← List.length_append]; exact hj
  have hia : i < a.length := by
    by_contra hia
    push_neg at hia
    have hib : i - a.length < b.length := by omega
    have hgb : (a ++ b).get ⟨i, hi⟩ = b.get ⟨i - a.length, hib⟩ := by
      rw [List.get_eq_getElem, List.get_eq_getElem, List.getElem_append_right hia]
    rw [hgb] at hp
    have hfalse := hb (b.get ⟨i - a.length, hib⟩) (List.get_mem b (i - a.length) hib)
    rw [hfalse] at hp
    exact Bool.noConfusion hp
  have hja : a.length ≤ j := by
    by_contra hja
    push_neg at hja
    have hga : (a ++ b).get ⟨j, hj⟩ = a.get ⟨j, hja⟩ := by
      rw [List.get_eq_getElem, List.get_eq_getElem, List.getElem_append_left hja]
    rw [hga] at hq
    have hfalse := ha (a.get ⟨j, hja⟩) (List.get_mem a j hja)
    rw [hfalse] at hq
    exact Bool.noConfusion hq
  omega

/-- Pointwise-false predicates join across an append. -/
theorem mem_append_false {P : PEvent → Bool} {a b : List PEvent}
    (ha : ∀ e ∈ a, P e = false) (hb : ∀ e ∈ b, P e = false) :
    ∀ e ∈ a ++ b, P e = false := by
  intro e he
  rcases List.mem_append.mp he with h | h
  · exact ha e h
  · exact hb e h

/-- The events of one secret's File specs are writes and symlinks only. -/
theorem fileSpecEvents_no_env_spawn (n : String) (specs : List FileExposeArgs) :
    ∀ e ∈ fileSpecEvents n specs, isSetEnv e = false ∧ isSpawn e = false := by
  intro e he
  unfold fileSpecEvents at he
  rw [List.mem_flatMap] at he
  obtain ⟨sp, _, hmem⟩ := he
  rcases List.mem_cons.mp hmem with rfl | h
  · exact ⟨rfl, rfl⟩
  · cases hv : sp.vanity_path with
    | some p =>
      rw [hv] at h
      rcases List.mem_singleton.mp h with rfl
      exact ⟨rfl, rfl⟩
    | none =>
      rw [hv] at h
      exact absurd h (List.not_mem_nil e)

/-- The file-materialisation loop emits no env-injection and no spawn. -/
theorem runFiles_no_env_spawn (secrets : List (String × Secret))
    (identities : List IdentityKey) (storage : String → Option AgeCiphertext)
    (fs : List (String × List FileExposeArgs)) :
    ∀ e ∈ (runFiles secrets identities storage fs).2,
      isSetEnv e = false ∧ isSpawn e = false := by
  induction fs with
  | nil => intro e he; simp [runFiles] at he
  | cons hd tl ih =>
    obtain ⟨name, specs⟩ := hd
    intro e he
    cases hl : lookupSecret secrets name with
    | none => simp only [runFiles, hl] at he; simp at he
    | some s =>
      cases hf : fetchDecrypt storage identities s with
      | error err =>
        simp only [runFiles, hl, hf] at he
        rcases List.mem_singleton.mp he with rfl
        exact ⟨rfl, rfl⟩
      | ok bytes =>
        simp only [runFiles, hl, hf, List.mem_cons, List.mem_append] at he
        rcases he with rfl | h | h
        · exact ⟨rfl, rfl⟩
        · exact fileSpecEvents_no_env_spawn s.name specs e h
        · exact ih e h

/-- The env-materialisation loop emits no file write and no spawn. -/
theorem runEnvs_no_write_spawn (secrets : List (String × Secret))
    (identities : List IdentityKey) (storage : String → Option AgeCiphertext)
    (es : List (String × List EnvExposeArgs)) :
    ∀ e ∈ (runEnvs secrets identities storage es).2,
      isWriteFile e = false ∧ isSpawn e = false := by
  induction es with
  | nil => intro e he; simp [runEnvs] at he
  | cons hd tl ih =>
    obtain ⟨name, specs⟩ := hd
    intro e he
    cases hl : lookupSecret secrets name with
    | none => simp only [runEnvs, hl] at he; simp at he
    | some s =>
      cases hf : fetchDecrypt storage identities s with
      | error err =>
        simp only [runEnvs, hl, hf] at he
        rcases List.mem_singleton.mp he with rfl
        exact ⟨rfl, rfl⟩
      | ok bytes =>
        cases hv : utf8Valid bytes with
        | true =>
          simp only [runEnvs, hl, hf, hv, if_true, List.mem_cons, List.mem_append] at he
          rcases he with rfl | h | h
          · exact ⟨rfl, rfl⟩
          · obtain ⟨sp, _, hsp⟩ := List.mem_map.mp h
            rw [← hsp]
            exact ⟨rfl, rfl⟩
          · exact ih e h
        | false =>
          simp only [runEnvs, hl, hf, hv] at he
          rcases List.mem_singleton.mp he with rfl
          exact ⟨rfl, rfl⟩

/-- Symlink cleanup emits neither writes nor env injections nor spawns. -/
theorem cleanupEvents_no_write_env_spawn (files : List (String × List FileExposeArgs)) :
    ∀ e ∈ cleanupEvents files,
      isWriteFile e = false ∧ isSetEnv e = false ∧ isSpawn e = false := by
  intro e he
  unfold cleanupEvents at he
  rw [List.mem_flatMap] at he
  obtain ⟨p, _, hmem⟩ := he
  rw [List.mem_filterMap] at hmem
  obtain ⟨sp, _, hsp⟩ := hmem
  obtain ⟨q, _, hfq⟩ := Option.map_eq_some'.mp hsp
  rw [← hfq]
  exact ⟨rfl, rfl, rfl⟩

end Credible

namespace Credible

/-- C4: the claim as stated fails on the code — in the sample run with
one file and one env exposure, the certificate file is written (event
index 3) before the env var is injected (event index 6): `run_process`
materialises files first (src/process/mod.rs:52-89) and env vars after
(src/process/mod.rs:91-109). -/
theorem c4_counterexample_file_written_first :
    ¬ eventsOrdered sampleTrace isSetEnv isWriteFile := by
  intro h
  exact absurd (h 6 3 (by decide) (by decide) (by decide) (by decide)) (by decide)

/-- C4 amended: in every run-command invocation all decrypted files are
written strictly before any environment variable is injected, and both
happen strictly before the child is spawned. -/
theorem c4_files_written_before_envs
    (argv : List String) (secrets : List (String × Secret))
    (files : List (String × List FileExposeArgs))
    (envs : List (String × List EnvExposeArgs))
    (identities : List IdentityKey) (storage : String → Option AgeCiphertext)
    (childStatus : Nat) :
    eventsOrdered (runProcess argv secrets files envs identities storage childStatus).2
      isWriteFile isSetEnv ∧
    eventsOrdered (runProcess argv secrets files envs identities storage childStatus).2
      isWriteFile isSpawn ∧
    eventsOrdered (runProcess argv secrets files envs identities storage childStatus).2
      isSetEnv isSpawn := by
  have hpreSet : ∀ e ∈ [PEvent.createTempDir, PEvent.installSignalHandlers],
      isSetEnv e = false := by
    intro e he
    rcases List.mem_cons.mp he with rfl | he
    · rfl
    · rcases List.mem_singleton.mp he with rfl
      rfl
  have hpreSpawn : ∀ e ∈ [PEvent.createTempDir, PEvent.installSignalHandlers],
      isSpawn e = false := by
    intro e he
    rcases List.mem_cons.mp he with rfl | he
    · rfl
    · rcases List.mem_singleton.mp he with rfl
      rfl
  cases argv with
  | nil =>
    refine ⟨?_, ?_, ?_⟩ <;>
      exact ordered_of_no_q _ _ _ (by intro e he; simp [runProcess] at he)
  | cons a0 args =>
    rcases hf : runFiles secrets identities storage files with ⟨ferr, fevs⟩
    have hfevs : ∀ e ∈ fevs, isSetEnv e = false ∧ isSpawn e = false := by
      have h0 := runFiles_no_env_spawn secrets identities storage files
      rw [hf] at h0
      exact h0
    cases ferr with
    | some err =>
      have ht : (runProcess (a0 :: args) secrets files envs identities storage childStatus).2
          = [PEvent.createTempDir, PEvent.installSignalHandlers] ++ fevs := by
        simp [runProcess, hf]
      rw [ht]
      refine ⟨?_, ?_, ?_⟩
      · exact ordered_of_no_q _ _ _
          (mem_append_false hpreSet fun e he => (hfevs e he).1)
      · exact ordered_of_no_q _ _ _
          (mem_append_false hpreSpawn fun e he => (hfevs e he).2)
      · exact ordered_of_no_q _ _ _
          (mem_append_false hpreSpawn fun e he => (hfevs e he).2)
    | none =>
      rcases hv : runEnvs secrets identities storage envs with ⟨eerr, eevs⟩
      have heevs : ∀ e ∈ eevs, isWriteFile e = false ∧ isSpawn e = false := by
        have h0 := runEnvs_no_write_spawn secrets identities storage envs
        rw [hv] at h0
        exact h0
      cases eerr with
      | some err =>
        have ht : (runProcess (a0 :: args) secrets files envs identities storage childStatus).2
            = ([PEvent.createTempDir, PEvent.installSignalHandlers] ++ fevs) ++ eevs := by
          simp [runProcess, hf, hv, List.append_assoc]
        rw [ht]
        refine ⟨?_, ?_, ?_⟩
        · exact ordered_of_append _ _ _ _
            (mem_append_false hpreSet fun e he => (hfevs e he).1)
            (fun e he => (heevs e he).1)
        · exact ordered_of_no_q _ _ _
            (mem_append_false
              (mem_append_false hpreSpawn fun e he => (hfevs e he).2)
              (fun e he => (heevs e he).2))
        · exact ordered_of_no_q _ _ _
            (mem_append_false
              (mem_append_false hpreSpawn fun e he => (hfevs e he).2)
              (fun e he => (heevs e he).2))
      | none =>
        have htailWrite : ∀ e ∈ [PEvent.spawn, PEvent.childExited childStatus,
            PEvent.removeTempDir] ++ cleanupEvents files, isWriteFile e = false := by
          refine mem_append_false ?_ fun e he => (cleanupEvents_no_write_env_spawn files e he).1
          intro e he
          simp only [List.mem_cons, List.not_mem_nil, or_false] at he
          rcases he with rfl | rfl | rfl <;> rfl
        have htailSet : ∀ e ∈ [PEvent.spawn, PEvent.childExited childStatus,
            PEvent.removeTempDir] ++ cleanupEvents files, isSetEnv e = false := by
          refine mem_append_false ?_ fun e he => (cleanupEvents_no_write_env_spawn files e he).2.1
          intro e he
          simp only [List.mem_cons, List.not_mem_nil, or_false] at he
          rcases he with rfl | rfl | rfl <;> rfl
        refine ⟨?_, ?_, ?_⟩
        · have ht : (runProcess (a0 :: args) secrets files envs identities storage childStatus).2
              = ([PEvent.createTempDir, PEvent.installSignalHandlers] ++ fevs) ++
                (eevs ++ ([PEvent.spawn, PEvent.childExited childStatus,
                  PEvent.removeTempDir] ++ cleanupEvents files)) := by
            simp [runProcess, hf, hv, List.append_assoc]
          rw [ht]
          exact ordered_of_append _ _ _ _
            (mem_append_false hpreSet fun e he => (hfevs e he).1)
            (mem_append_false (fun e he => (heevs e he).1) htailWrite)
        · have ht : (runProcess (a0 :: args) secrets files envs identities storage childStatus).2
              = (([PEvent.createTempDir, PEvent.installSignalHandlers] ++ fevs) ++ eevs) ++
                ([PEvent.spawn, PEvent.childExited childStatus,
                  PEvent.removeTempDir] ++ cleanupEvents files) := by
            simp [runProcess, hf, hv, List.append_assoc]
          rw [ht]
          exact ordered_of_append _ _ _ _
            (mem_append_false
              (mem_append_false hpreSpawn fun e he => (hfevs e he).2)
              (fun e he => (heevs e he).2))
            htailWrite
        · have ht : (runProcess (a0 :: args) secrets files envs identities storage childStatus).2
              = (([PEvent.createTempDir, PEvent.installSignalHandlers] ++ fevs) ++ eevs) ++
                ([PEvent.spawn, PEvent.childExited childStatus,
                  PEvent.removeTempDir] ++ cleanupEvents files) := by
            simp [runProcess, hf, hv, List.append_assoc]
          rw [ht]
          exact ordered_of_append _ _ _ _
            (mem_append_false
              (mem_append_false hpreSpawn fun e he => (hfevs e he).2)
              (fun e he => (heevs e he).2))
            htailSet

end Credible

namespace Credible

/-- When every env exposure resolves and decrypts but some plaintext is
not valid UTF-8, the env loop stops with the io-level
`FetchingSecretsErr` that `read_to_string`'s failure is mapped to. -/
theorem runEnvs_stops_at_invalid (secrets : List (String × Secret))
    (identities : List IdentityKey) (storage : String → Option AgeCiphertext)
    (es : List (String × List EnvExposeArgs))
    (hres : ∀ p ∈ es, ∃ s bytes, lookupSecret secrets p.1 = some s ∧
      fetchDecrypt storage identities s = .ok bytes)
    (hbad : ∃ p ∈ es, ∃ s bytes, lookupSecret secrets p.1 = some s ∧
      fetchDecrypt storage identities s = .ok bytes ∧ utf8Valid bytes = false) :
    (runEnvs secrets identities storage es).1 = some .FetchingSecretsErr := by
  induction es with
  | nil =>
    obtain ⟨p, hp, _⟩ := hbad
    exact absurd hp (List.not_mem_nil p)
  | cons hd tl ih =>
    obtain ⟨name, specs⟩ := hd
    obtain ⟨s, bytes, hl, hfd⟩ := hres (name, specs) (List.mem_cons_self _ _)
    cases hv : utf8Valid bytes with
    | false => simp [runEnvs, hl, hfd, hv]
    | true =>
      have hrest : (runEnvs secrets identities storage tl).1 = some .FetchingSecretsErr := by
        apply ih
        · intro p hp
          exact hres p (List.mem_cons_of_mem _ hp)
        · obtain ⟨p, hp, s', bytes', hl', hf', hv'⟩ := hbad
          rcases List.mem_cons.mp hp with rfl | hp'
          · rw [hl] at hl'
            rw [Option.some_inj] at hl'
            subst hl'
            rw [hfd] at hf'
            rw [Except.ok.injEq] at hf'
            subst hf'
            rw [hv] at hv'
            exact Bool.noConfusion hv'
          · exact ⟨p, hp', s', bytes', hl', hf', hv'⟩
      simp [runEnvs, hl, hfd, hv, hrest]

/-- C8: the claim as stated fails on the code — with the `db` secret
decrypting to the byte `0xFF`, the run fails with `FetchingSecretsErr`
(the io invalid-data failure of `read_to_string` mapped at
src/process/mod.rs:100-103), not with `NotValidUTF8("db")`; the
`NotValidUTF8` variant exists (src/process/error.rs:26-27) but the live
env loop never constructs it. -/
theorem c8_counterexample_error_is_fetching :
    (runProcess ["sh"] sampleSecrets [] sampleEnvs sampleIdentities badUtf8Storage 0).1
        = .error .FetchingSecretsErr ∧
    (runProcess ["sh"] sampleSecrets [] sampleEnvs sampleIdentities badUtf8Storage 0).1
        ≠ .error (.NotValidUTF8 "db") := by
  constructor
  · rfl
  · intro h
    have hinj := Except.error.inj
      (((rfl :
        (runProcess ["sh"] sampleSecrets [] sampleEnvs sampleIdentities badUtf8Storage 0).1
          = Except.error ProcessRunningError.FetchingSecretsErr)).symm.trans h)
    exact absurd hinj (by decide)

/-- C8 amended: for every run-command invocation whose env exposures all
resolve and decrypt but at least one decrypts to bytes that are not
valid UTF-8 (and whose file stage does not fail first), `run_process`
fails with `FetchingSecretsErr` — carrying the stream's invalid-data
failure rather than `NotValidUTF8(secret_name)` — and the child is not
spawned. -/
theorem c8_invalid_utf8_env_aborts
    (a0 : String) (args : List String) (secrets : List (String × Secret))
    (files : List (String × List FileExposeArgs))
    (envs : List (String × List EnvExposeArgs))
    (identities : List IdentityKey) (storage : String → Option AgeCiphertext)
    (childStatus : Nat)
    (hfiles : (runFiles secrets identities storage files).1 = none)
    (hres : ∀ p ∈ envs, ∃ s bytes, lookupSecret secrets p.1 = some s ∧
      fetchDecrypt storage identities s = .ok bytes)
    (hbad : ∃ p ∈ envs, ∃ s bytes, lookupSecret secrets p.1 = some s ∧
      fetchDecrypt storage identities s = .ok bytes ∧ utf8Valid bytes = false) :
    (runProcess (a0 :: args) secrets files envs identities storage childStatus).1
        = .error .FetchingSecretsErr ∧
    PEvent.spawn ∉ (runProcess (a0 :: args) secrets files envs identities storage childStatus).2 := by
  rcases hf : runFiles secrets identities storage files with ⟨ferr, fevs⟩
  rw [hf] at hfiles
  simp only at hfiles
  subst hfiles
  rcases hv : runEnvs secrets identities storage envs with ⟨eerr, eevs⟩
  have herr := runEnvs_stops_at_invalid secrets identities storage envs hres hbad
  rw [hv] at herr
  simp only at herr
  subst herr
  have hfevs : ∀ e ∈ fevs, isSetEnv e = false ∧ isSpawn e = false := by
    have h0 := runFiles_no_env_spawn secrets identities storage files
    rw [hf] at h0
    exact h0
  have heevs : ∀ e ∈ eevs, isWriteFile e = false ∧ isSpawn e = false := by
    have h0 := runEnvs_no_write_spawn secrets identities storage envs
    rw [hv] at h0
    exact h0
  constructor
  · simp [runProcess, hf, hv]
  · have ht : (runProcess (a0 :: args) secrets files envs identities storage childStatus).2
        = [PEvent.createTempDir, PEvent.installSignalHandlers] ++ (fevs ++ eevs) := by
      simp [runProcess, hf, hv, List.append_assoc]
    rw [ht]
    intro hmem
    rcases List.mem_append.mp hmem with h | h
    · rcases List.mem_cons.mp h with h2 | h2
      · exact PEvent.noConfusion h2
      · rcases List.mem_singleton.mp h2 with h3
        exact PEvent.noConfusion h3
    · rcases List.mem_append.mp h with h2 | h2
      · have := (hfevs _ h2).2
        simp [isSpawn] at this
      · have := (heevs _ h2).2
        simp [isSpawn] at this

/-- Witness for the amended C8 at the sample input: the `db` secret
decrypts to `0xFF`, the run fails with `FetchingSecretsErr`, and no
spawn event occurs. -/
theorem c8_invalid_utf8_env_aborts_witness :
    (runProcess ["sh"] sampleSecrets [] sampleEnvs sampleIdentities badUtf8Storage 0).1
        = .error .FetchingSecretsErr ∧
    PEvent.spawn ∉
      (runProcess ["sh"] sampleSecrets [] sampleEnvs sampleIdentities badUtf8Storage 0).2 :=
  c8_invalid_utf8_env_aborts "sh" [] sampleSecrets [] sampleEnvs sampleIdentities
    badUtf8Storage 0 rfl
    (by
      intro p hp
      rcases List.mem_singleton.mp hp with rfl
      exact ⟨{ name := "db", encryption_keys := [.x25519 1], path := "k2" }, [255], rfl, rfl⟩)
    ⟨("db", [{ name := "DB_PASS" }]), List.mem_singleton.mpr rfl,
      { name := "db", encryption_keys := [.x25519 1], path := "k2" }, [255], rfl, rfl, rfl⟩

end Credible

namespace Credible

/-- Folding one secret's spec list into the mappings appends that
secret's File payloads under its key. -/
theorem addSpecs_files (e : Exposures) (name : String) (specs : List ExposureSpec)
    (k : String) :
    (specs.foldl (fun acc spec => acc.addSpec name spec) e).files k
      = e.files k ++ (if k = name then specFiles specs else []) := by
  induction specs generalizing e with
  | nil => simp [specFiles]
  | cons s rest ih =>
    rw [List.foldl_cons, ih]
    cases s with
    | File a =>
      by_cases hk : k = name
      · simp [Exposures.addSpec, specFiles, hk]
      · simp [Exposures.addSpec, specFiles, hk]
    | Env a =>
      by_cases hk : k = name
      · simp [Exposures.addSpec, specFiles, hk]
      · simp [Exposures.addSpec, specFiles, hk]

/-- Folding one secret's spec list into the mappings appends that
secret's Env payloads under its key. -/
theorem addSpecs_envs (e : Exposures) (name : String) (specs : List ExposureSpec)
    (k : String) :
    (specs.foldl (fun acc spec => acc.addSpec name spec) e).envs k
      = e.envs k ++ (if k = name then specEnvs specs else []) := by
  induction specs generalizing e with
  | nil => simp [specEnvs]
  | cons s rest ih =>
    rw [List.foldl_cons, ih]
    cases s with
    | File a =>
      by_cases hk : k = name
      · simp [Exposures.addSpec, specEnvs, hk]
      · simp [Exposures.addSpec, specEnvs, hk]
    | Env a =>
      by_cases hk : k = name
      · simp [Exposures.addSpec, specEnvs, hk]
      · simp [Exposures.addSpec, specEnvs, hk]

/-- Closed form of the files mapping after `add_config`: the prior list
followed by every input's File payloads for the key, in input order. -/
theorem add_config_files (e : Exposures) (config : List (String × List ExposureSpec))
    (k : String) :
    (e.add_config config).files k
      = e.files k ++ config.flatMap (fun p => if k = p.1 then specFiles p.2 else []) := by
  induction config generalizing e with
  | nil => simp [Exposures.add_config]
  | cons p rest ih =>
    rw [Exposures.add_config, List.foldl_cons]
    rw [show (rest.foldl (fun acc q => q.2.foldl (fun acc2 spec => acc2.addSpec q.1 spec) acc)
        (p.2.foldl (fun acc2 spec => acc2.addSpec p.1 spec) e))
      = ((p.2.foldl (fun acc2 spec => acc2.addSpec p.1 spec) e).add_config rest) from rfl]
    rw [ih, addSpecs_files]
    simp [List.append_assoc]

/-- Closed form of the envs mapping after `add_config`. -/
theorem add_config_envs (e : Exposures) (config : List (String × List ExposureSpec))
    (k : String) :
    (e.add_config config).envs k
      = e.envs k ++ config.flatMap (fun p => if k = p.1 then specEnvs p.2 else []) := by
  induction config generalizing e with
  | nil => simp [Exposures.add_config]
  | cons p rest ih =>
    rw [Exposures.add_config, List.foldl_cons]
    rw [show (rest.foldl (fun acc q => q.2.foldl (fun acc2 spec => acc2.addSpec q.1 spec) acc)
        (p.2.foldl (fun acc2 spec => acc2.addSpec p.1 spec) e))
      = ((p.2.foldl (fun acc2 spec => acc2.addSpec p.1 spec) e).add_config rest) from rfl]
    rw [ih, addSpecs_envs]
    simp [List.append_assoc]

/-- C9: the claim as stated fails on the code — two inputs exposing the
same secret name added in opposite orders yield envs mappings whose
per-key lists differ in order, so the mappings are not equal
(`Exposures::add_config` pushes in iteration order,
src/secret/exposures.rs:87-113). -/
theorem c9_counterexample_order_sensitive :
    (Exposures.empty.add_config
        [("a", [.Env ⟨"E1"⟩]), ("a", [.Env ⟨"E2"⟩])]).envs "a"
      ≠ (Exposures.empty.add_config
        [("a", [.Env ⟨"E2"⟩]), ("a", [.Env ⟨"E1"⟩])]).envs "a" := by
  decide

/-- C9 amended: the files and envs mappings built by `add_config` from
any two orderings of the same inputs agree up to the order of each
per-secret list — for every key the lists are permutations of one
another (and so equal as multisets). -/
theorem c9_add_config_order_invariance (e : Exposures)
    (I1 I2 : List (String × List ExposureSpec)) (hperm : I1.Perm I2) (k : String) :
    ((e.add_config I1).files k).Perm ((e.add_config I2).files k) ∧
    ((e.add_config I1).envs k).Perm ((e.add_config I2).envs k) := by
  constructor
  · rw [add_config_files, add_config_files]
    exact List.Perm.append_left _ (hperm.flatMap_right _)
  · rw [add_config_envs, add_config_envs]
    exact List.Perm.append_left _ (hperm.flatMap_right _)

/-- Witness for the amended C9 at a concrete pair of reordered inputs
sharing the secret name `a`. -/
theorem c9_add_config_order_invariance_witness :
    ((Exposures.empty.add_config
        [("a", [.Env ⟨"E1"⟩]), ("a", [.Env ⟨"E2"⟩])]).files "a").Perm
      ((Exposures.empty.add_config
        [("a", [.Env ⟨"E2"⟩]), ("a", [.Env ⟨"E1"⟩])]).files "a") ∧
    ((Exposures.empty.add_config
        [("a", [.Env ⟨"E1"⟩]), ("a", [.Env ⟨"E2"⟩])]).envs "a").Perm
      ((Exposures.empty.add_config
        [("a", [.Env ⟨"E2"⟩]), ("a", [.Env ⟨"E1"⟩])]).envs "a") :=
  c9_add_config_order_invariance Exposures.empty
    [("a", [.Env ⟨"E1"⟩]), ("a", [.Env ⟨"E2"⟩])]
    [("a", [.Env ⟨"E2"⟩]), ("a", [.Env ⟨"E1"⟩])]
    (by decide) "a"

end Credible

namespace Credible

/-! ### Builder duplicate detection -/

/-- When a File batch carries no duplicate vanity path and none already
seen, the insertion loop succeeds and the seen-set afterwards holds
exactly the old paths and the batch's paths. -/
theorem insertFilePaths_ok (seen : List String) (args : List FileExposeArgs)
    (hnodup : (args.filterMap (·.vanity_path)).Nodup)
    (hdisj : ∀ p ∈ args.filterMap (·.vanity_path), p ∉ seen) :
    ∃ seen', insertFilePaths seen args = .ok seen' ∧
      ∀ x, x ∈ seen' ↔ x ∈ args.filterMap (·.vanity_path) ∨ x ∈ seen := by
  induction args generalizing seen with
  | nil => exact ⟨seen, rfl, by simp [List.filterMap_nil]⟩
  | cons e rest ih =>
    cases hv : e.vanity_path with
    | none =>
      have hfm : (e :: rest).filterMap (·.vanity_path) = rest.filterMap (·.vanity_path) := by
        simp [List.filterMap_cons, hv]
      rw [hfm] at hnodup hdisj
      obtain ⟨seen', h1, h2⟩ := ih seen hnodup hdisj
      refine ⟨seen', ?_, ?_⟩
      · simp only [insertFilePaths, hv]
        exact h1
      · intro x
        rw [hfm]
        exact h2 x
    | some p =>
      have hfm : (e :: rest).filterMap (·.vanity_path)
          = p :: rest.filterMap (·.vanity_path) := by
        simp [List.filterMap_cons, hv]
      rw [hfm] at hnodup hdisj
      have hpseen : p ∉ seen := hdisj p (List.mem_cons_self _ _)
      have hpnotrest : p ∉ rest.filterMap (·.vanity_path) := (List.nodup_cons.mp hnodup).1
      have hnodup' : (rest.filterMap (·.vanity_path)).Nodup := (List.nodup_cons.mp hnodup).2
      have hdisj' : ∀ q ∈ rest.filterMap (·.vanity_path), q ∉ p :: seen := by
        intro q hq hmem
        rcases List.mem_cons.mp hmem with rfl | hmem
        · exact hpnotrest hq
        · exact hdisj q (List.mem_cons_of_mem _ hq) hmem
      obtain ⟨seen', h1, h2⟩ := ih (p :: seen) hnodup' hdisj'
      refine ⟨seen', ?_, ?_⟩
      · simp only [insertFilePaths, hv]
        rw [if_neg hpseen]
        exact h1
      · intro x
        rw [hfm, h2 x]
        simp only [List.mem_cons]
        tauto

/-- When a File batch repeats a vanity path (within itself or against
the seen-set), the insertion loop fails with `DuplicatePath` of an
offending path. -/
theorem insertFilePaths_dup (seen : List String) (args : List FileExposeArgs)
    (h : ¬ (args.filterMap (·.vanity_path)).Nodup ∨
      ∃ p ∈ args.filterMap (·.vanity_path), p ∈ seen) :
    ∃ p, insertFilePaths seen args = .error (.DuplicatePath p) ∧
      (2 ≤ (args.filterMap (·.vanity_path)).count p ∨
        (p ∈ args.filterMap (·.vanity_path) ∧ p ∈ seen)) := by
  induction args generalizing seen with
  | nil =>
    rcases h with h | ⟨p, hp, _⟩
    · simp at h
    · exact absurd hp (by simp)
  | cons e rest ih =>
    cases hv : e.vanity_path with
    | none =>
      have hfm : (e :: rest).filterMap (·.vanity_path) = rest.filterMap (·.vanity_path) := by
        simp [List.filterMap_cons, hv]
      rw [hfm] at h
      obtain ⟨p, herr, hcase⟩ := ih seen h
      refine ⟨p, ?_, ?_⟩
      · simp only [insertFilePaths, hv]
        exact herr
      · rw [hfm]
        exact hcase
    | some p0 =>
      have hfm : (e :: rest).filterMap (·.vanity_path)
          = p0 :: rest.filterMap (·.vanity_path) := by
        simp [List.filterMap_cons, hv]
      by_cases hps : p0 ∈ seen
      · refine ⟨p0, ?_, Or.inr ⟨?_, hps⟩⟩
        · simp only [insertFilePaths, hv]
          rw [if_pos hps]
        · rw [hfm]
          exact List.mem_cons_self _ _
      · rw [hfm] at h
        have h' : ¬ (rest.filterMap (·.vanity_path)).Nodup ∨
            ∃ q ∈ rest.filterMap (·.vanity_path), q ∈ p0 :: seen := by
          rcases h with h | ⟨q, hq, hqseen⟩
          · rw [List.nodup_cons] at h
            push_neg at h
            by_cases hmem : p0 ∈ rest.filterMap (·.vanity_path)
            · exact Or.inr ⟨p0, hmem, List.mem_cons_self _ _⟩
            · exact Or.inl (h hmem)
          · rcases List.mem_cons.mp hq with rfl | hq'
            · exact absurd hqseen hps
            · exact Or.inr ⟨q, hq', List.mem_cons_of_mem _ hqseen⟩
        obtain ⟨p, herr, hcase⟩ := ih (p0 :: seen) h'
        refine ⟨p, ?_, ?_⟩
        · simp only [insertFilePaths, hv]
          rw [if_neg hps]
          exact herr
        · rcases hcase with hcount | ⟨hmem, hmemseen⟩
          · left
            rw [hfm, List.count_cons]
            omega
          · rcases List.mem_cons.mp hmemseen with rfl | hseen2
            · left
              rw [hfm, List.count_cons]
              have h1 := List.count_pos_iff.mpr hmem
              simp only [beq_self_eq_true, if_true]
              omega
            · exact Or.inr ⟨by rw [hfm]; exact List.mem_cons_of_mem _ hmem, hseen2⟩

/-- When an Env batch carries no duplicate name and none already seen,
the insertion loop succeeds and the seen-set afterwards holds exactly
the old names and the batch's names. -/
theorem insertEnvNames_ok (seen : List String) (args : List EnvExposeArgs)
    (hnodup : (args.map (·.name)).Nodup)
    (hdisj : ∀ n ∈ args.map (·.name), n ∉ seen) :
    ∃ seen', insertEnvNames seen args = .ok seen' ∧
      ∀ x, x ∈ seen' ↔ x ∈ args.map (·.name) ∨ x ∈ seen := by
  induction args generalizing seen with
  | nil => exact ⟨seen, rfl, by simp⟩
  | cons e rest ih =>
    have hfm : (e :: rest).map (·.name) = e.name :: rest.map (·.name) := rfl
    rw [hfm] at hnodup hdisj
    have hpseen : e.name ∉ seen := hdisj e.name (List.mem_cons_self _ _)
    have hpnotrest : e.name ∉ rest.map (·.name) := (List.nodup_cons.mp hnodup).1
    have hnodup' : (rest.map (·.name)).Nodup := (List.nodup_cons.mp hnodup).2
    have hdisj' : ∀ q ∈ rest.map (·.name), q ∉ e.name :: seen := by
      intro q hq hmem
      rcases List.mem_cons.mp hmem with rfl | hmem
      · exact hpnotrest hq
      · exact hdisj q (List.mem_cons_of_mem _ hq) hmem
    obtain ⟨seen', h1, h2⟩ := ih (e.name :: seen) hnodup' hdisj'
    refine ⟨seen', ?_, ?_⟩
    · simp only [insertEnvNames]
      rw [if_neg hpseen]
      exact h1
    · intro x
      rw [hfm, h2 x]
      simp only [List.mem_cons]
      tauto

/-- When an Env batch repeats a name (within itself or against the
seen-set), the insertion loop fails with `DuplicateEnvName` of an
offending name. -/
theorem insertEnvNames_dup (seen : List String) (args : List EnvExposeArgs)
    (h : ¬ (args.map (·.name)).Nodup ∨ ∃ n ∈ args.map (·.name), n ∈ seen) :
    ∃ n, insertEnvNames seen args = .error (.DuplicateEnvName n) ∧
      (2 ≤ (args.map (·.name)).count n ∨
        (n ∈ args.map (·.name) ∧ n ∈ seen)) := by
  induction args generalizing seen with
  | nil =>
    rcases h with h | ⟨n, hn, _⟩
    · simp at h
    · exact absurd hn (by simp)
  | cons e rest ih =>
    have hfm : (e :: rest).map (·.name) = e.name :: rest.map (·.name) := rfl
    by_cases hps : e.name ∈ seen
    · refine ⟨e.name, ?_, Or.inr ⟨?_, hps⟩⟩
      · simp only [insertEnvNames]
        rw [if_pos hps]
      · rw [hfm]
        exact List.mem_cons_self _ _
    · rw [hfm] at h
      have h' : ¬ (rest.map (·.name)).Nodup ∨
          ∃ q ∈ rest.map (·.name), q ∈ e.name :: seen := by
        rcases h with h | ⟨q, hq, hqseen⟩
        · rw [List.nodup_cons] at h
          push_neg at h
          by_cases hmem : e.name ∈ rest.map (·.name)
          · exact Or.inr ⟨e.name, hmem, List.mem_cons_self _ _⟩
          · exact Or.inl (h hmem)
        · rcases List.mem_cons.mp hq with rfl | hq'
          · exact absurd hqseen hps
          · exact Or.inr ⟨q, hq', List.mem_cons_of_mem _ hqseen⟩
      obtain ⟨n, herr, hcase⟩ := ih (e.name :: seen) h'
      refine ⟨n, ?_, ?_⟩
      · simp only [insertEnvNames]
        rw [if_neg hps]
        exact herr
      · rcases hcase with hcount | ⟨hmem, hmemseen⟩
        · left
          rw [hfm, List.count_cons]
          omega
        · rcases List.mem_cons.mp hmemseen with rfl | hseen2
          · left
            rw [hfm, List.count_cons]
            have h1 := List.count_pos_iff.mpr hmem
            simp only [beq_self_eq_true, if_true]
            omega
          · exact Or.inr ⟨by rw [hfm]; exact List.mem_cons_of_mem _ hmem, hseen2⟩

end Credible

namespace Credible

/-- Feeding batches whose env names are fresh and duplicate-free while
the vanity paths repeat (within the batches or against the seen-set)
fails with `DuplicatePath` of an offending path. -/
theorem addBatches_file_dup (bs : List ExposureBatch) (st : StateBuilder)
    (henv : (batchEnvNames bs).Nodup)
    (henvseen : ∀ n ∈ batchEnvNames bs, n ∉ st.seen_env_vars)
    (h : ¬ (batchVanityPaths bs).Nodup ∨
      ∃ p ∈ batchVanityPaths bs, p ∈ st.seen_file_paths) :
    ∃ p, st.addBatches bs = .error (.DuplicatePath p) ∧
      (2 ≤ (batchVanityPaths bs).count p ∨
        (p ∈ batchVanityPaths bs ∧ p ∈ st.seen_file_paths)) := by
  induction bs generalizing st with
  | nil =>
    rcases h with h | ⟨p, hp, _⟩
    · simp [batchVanityPaths] at h
    · simp [batchVanityPaths] at hp
  | cons b rest ih =>
    cases b with
    | files l =>
      have hbv : batchVanityPaths (.files l :: rest)
          = l.filterMap (·.vanity_path) ++ batchVanityPaths rest := by
        simp [batchVanityPaths]
      have hbe : batchEnvNames (.files l :: rest) = batchEnvNames rest := by
        simp [batchEnvNames]
      rw [hbe] at henv henvseen
      rw [hbv] at h
      by_cases hfail : (l.filterMap (·.vanity_path)).Nodup ∧
          ∀ p ∈ l.filterMap (·.vanity_path), p ∉ st.seen_file_paths
      · obtain ⟨seen', hok, hchar⟩ :=
          insertFilePaths_ok st.seen_file_paths l hfail.1 hfail.2
        have h' : ¬ (batchVanityPaths rest).Nodup ∨
            ∃ p ∈ batchVanityPaths rest, p ∈ seen' := by
          rcases h with h | ⟨p, hp, hpseen⟩
          · rw [List.nodup_append] at h
            push_neg at h
            by_cases hB : (batchVanityPaths rest).Nodup
            · have hnd := h hfail.1 hB
              simp only [List.disjoint_left] at hnd
              push_neg at hnd
              obtain ⟨x, hx1, hx2⟩ := hnd
              exact Or.inr ⟨x, hx2, (hchar x).mpr (Or.inl hx1)⟩
            · exact Or.inl hB
          · rcases List.mem_append.mp hp with hp1 | hp2
            · exact absurd hpseen (hfail.2 p hp1)
            · exact Or.inr ⟨p, hp2, (hchar p).mpr (Or.inr hpseen)⟩
        obtain ⟨p, herr, hcase⟩ :=
          ih { st with seen_file_paths := seen'
                       collected_files := st.collected_files ++ l } henv henvseen h'
        refine ⟨p, ?_, ?_⟩
        · have hred : st.addBatches (.files l :: rest)
              = StateBuilder.addBatches { st with seen_file_paths := seen'
                                                  collected_files := st.collected_files ++ l } rest := by
            simp only [StateBuilder.addBatches, StateBuilder.add_file_exposures, hok]
          rw [hred]
          exact herr
        · rw [hbv]
          rcases hcase with hcount | ⟨hmem, hmemseen⟩
          · left
            rw [List.count_append]
            omega
          · rcases (hchar p).mp hmemseen with hin | hin
            · left
              rw [List.count_append]
              have c1 := List.count_pos_iff.mpr hin
              have c2 := List.count_pos_iff.mpr hmem
              omega
            · exact Or.inr ⟨List.mem_append_right _ hmem, hin⟩
      · push_neg at hfail
        have hfail' : ¬ (l.filterMap (·.vanity_path)).Nodup ∨
            ∃ p ∈ l.filterMap (·.vanity_path), p ∈ st.seen_file_paths := by
          by_cases hA : (l.filterMap (·.vanity_path)).Nodup
          · exact Or.inr (hfail hA)
          · exact Or.inl hA
        obtain ⟨p, herr, hcase⟩ := insertFilePaths_dup st.seen_file_paths l hfail'
        refine ⟨p, ?_, ?_⟩
        · simp only [StateBuilder.addBatches, StateBuilder.add_file_exposures, herr]
        · rw [hbv]
          rcases hcase with hcount | ⟨hmem, hseen⟩
          · left
            rw [List.count_append]
            omega
          · exact Or.inr ⟨List.mem_append_left _ hmem, hseen⟩
    | envs l =>
      have hbv : batchVanityPaths (.envs l :: rest) = batchVanityPaths rest := by
        simp [batchVanityPaths]
      have hbe : batchEnvNames (.envs l :: rest)
          = l.map (·.name) ++ batchEnvNames rest := by
        simp [batchEnvNames]
      rw [hbv] at h
      rw [hbe] at henv henvseen
      rw [List.nodup_append] at henv
      obtain ⟨hA, hB, hdisjAB⟩ := henv
      have hdisj : ∀ n ∈ l.map (·.name), n ∉ st.seen_env_vars := fun n hn =>
        henvseen n (List.mem_append_left _ hn)
      obtain ⟨seen', hok, hchar⟩ := insertEnvNames_ok st.seen_env_vars l hA hdisj
      have henvseen' : ∀ n ∈ batchEnvNames rest, n ∉ seen' := by
        intro n hn hmem
        rcases (hchar n).mp hmem with hin | hin
        · exact hdisjAB hin hn
        · exact henvseen n (List.mem_append_right _ hn) hin
      obtain ⟨p, herr, hcase⟩ :=
        ih { st with seen_env_vars := seen'
                     collected_envs := st.collected_envs ++ l } hB henvseen' h
      refine ⟨p, ?_, ?_⟩
      · have hred : st.addBatches (.envs l :: rest)
            = StateBuilder.addBatches { st with seen_env_vars := seen'
                                                collected_envs := st.collected_envs ++ l } rest := by
          simp only [StateBuilder.addBatches, StateBuilder.add_env_exposures, hok]
        rw [hred]
        exact herr
      · rw [hbv]
        exact hcase

/-- Feeding batches whose vanity paths are fresh and duplicate-free
while the env names repeat fails with `DuplicateEnvName` of an
offending name. -/
theorem addBatches_env_dup (bs : List ExposureBatch) (st : StateBuilder)
    (hfile : (batchVanityPaths bs).Nodup)
    (hfileseen : ∀ p ∈ batchVanityPaths bs, p ∉ st.seen_file_paths)
    (h : ¬ (batchEnvNames bs).Nodup ∨
      ∃ n ∈ batchEnvNames bs, n ∈ st.seen_env_vars) :
    ∃ n, st.addBatches bs = .error (.DuplicateEnvName n) ∧
      (2 ≤ (batchEnvNames bs).count n ∨
        (n ∈ batchEnvNames bs ∧ n ∈ st.seen_env_vars)) := by
  induction bs generalizing st with
  | nil =>
    rcases h with h | ⟨n, hn, _⟩
    · simp [batchEnvNames] at h
    · simp [batchEnvNames] at hn
  | cons b rest ih =>
    cases b with
    | envs l =>
      have hbe : batchEnvNames (.envs l :: rest)
          = l.map (·.name) ++ batchEnvNames rest := by
        simp [batchEnvNames]
      have hbv : batchVanityPaths (.envs l :: rest) = batchVanityPaths rest := by
        simp [batchVanityPaths]
      rw [hbv] at hfile hfileseen
      rw [hbe] at h
      by_cases hfail : (l.map (·.name)).Nodup ∧
          ∀ n ∈ l.map (·.name), n ∉ st.seen_env_vars
      · obtain ⟨seen', hok, hchar⟩ := insertEnvNames_ok st.seen_env_vars l hfail.1 hfail.2
        have h' : ¬ (batchEnvNames rest).Nodup ∨
            ∃ n ∈ batchEnvNames rest, n ∈ seen' := by
          rcases h with h | ⟨n, hn, hnseen⟩
          · rw [List.nodup_append] at h
            push_neg at h
            by_cases hB : (batchEnvNames rest).Nodup
            · have hnd := h hfail.1 hB
              simp only [List.disjoint_left] at hnd
              push_neg at hnd
              obtain ⟨x, hx1, hx2⟩ := hnd
              exact Or.inr ⟨x, hx2, (hchar x).mpr (Or.inl hx1)⟩
            · exact Or.inl hB
          · rcases List.mem_append.mp hn with hn1 | hn2
            · exact absurd hnseen (hfail.2 n hn1)
            · exact Or.inr ⟨n, hn2, (hchar n).mpr (Or.inr hnseen)⟩
        obtain ⟨n, herr, hcase⟩ :=
          ih { st with seen_env_vars := seen'
                       collected_envs := st.collected_envs ++ l } hfile hfileseen h'
        refine ⟨n, ?_, ?_⟩
        · have hred : st.addBatches (.envs l :: rest)
              = StateBuilder.addBatches { st with seen_env_vars := seen'
                                                  collected_envs := st.collected_envs ++ l } rest := by
            simp only [StateBuilder.addBatches, StateBuilder.add_env_exposures, hok]
          rw [hred]
          exact herr
        · rw [hbe]
          rcases hcase with hcount | ⟨hmem, hmemseen⟩
          · left
            rw [List.count_append]
            omega
          · rcases (hchar n).mp hmemseen with hin | hin
            · left
              rw [List.count_append]
              have c1 := List.count_pos_iff.mpr hin
              have c2 := List.count_pos_iff.mpr hmem
              omega
            · exact Or.inr ⟨List.mem_append_right _ hmem, hin⟩
      · push_neg at hfail
        have hfail' : ¬ (l.map (·.name)).Nodup ∨
            ∃ n ∈ l.map (·.name), n ∈ st.seen_env_vars := by
          by_cases hA : (l.map (·.name)).Nodup
          · exact Or.inr (hfail hA)
          · exact Or.inl hA
        obtain ⟨n, herr, hcase⟩ := insertEnvNames_dup st.seen_env_vars l hfail'
        refine ⟨n, ?_, ?_⟩
        · simp only [StateBuilder.addBatches, StateBuilder.add_env_exposures, herr]
        · rw [hbe]
          rcases hcase with hcount | ⟨hmem, hseen⟩
          · left
            rw [List.count_append]
            omega
          · exact Or.inr ⟨List.mem_append_left _ hmem, hseen⟩
    | files l =>
      have hbv : batchVanityPaths (.files l :: rest)
          = l.filterMap (·.vanity_path) ++ batchVanityPaths rest := by
        simp [batchVanityPaths]
      have hbe : batchEnvNames (.files l :: rest) = batchEnvNames rest := by
        simp [batchEnvNames]
      rw [hbe] at h
      rw [hbv] at hfile hfileseen
      rw [List.nodup_append] at hfile
      obtain ⟨hA, hB, hdisjAB⟩ := hfile
      have hdisj : ∀ p ∈ l.filterMap (·.vanity_path), p ∉ st.seen_file_paths := fun p hp =>
        hfileseen p (List.mem_append_left _ hp)
      obtain ⟨seen', hok, hchar⟩ := insertFilePaths_ok st.seen_file_paths l hA hdisj
      have hfileseen' : ∀ p ∈ batchVanityPaths rest, p ∉ seen' := by
        intro p hp hmem
        rcases (hchar p).mp hmem with hin | hin
        · exact hdisjAB hin hp
        · exact hfileseen p (List.mem_append_right _ hp) hin
      obtain ⟨n, herr, hcase⟩ :=
        ih { st with seen_file_paths := seen'
                     collected_files := st.collected_files ++ l } hB hfileseen' h
      refine ⟨n, ?_, ?_⟩
      · have hred : st.addBatches (.files l :: rest)
            = StateBuilder.addBatches { st with seen_file_paths := seen'
                                                collected_files := st.collected_files ++ l } rest := by
          simp only [StateBuilder.addBatches, StateBuilder.add_file_exposures, hok]
        rw [hred]
        exact herr
      · rw [hbe]
        exact hcase

/-- C5: composing exposure inputs in any order, a repeated non-null
vanity path among the File specs makes the builder fail with
`DuplicatePath(p)` of a repeated path, and a repeated env name among
the Env specs makes it fail with `DuplicateEnvName(n)` of a repeated
name; the embedded builder performs no store or filesystem access —
the checks are pure seen-set operations (src/cli/state/builder.rs). -/
theorem c5_builder_rejects_duplicates (bs : List ExposureBatch) :
    ((batchEnvNames bs).Nodup → ¬ (batchVanityPaths bs).Nodup →
      ∃ p, StateBuilder.empty.addBatches bs = .error (.DuplicatePath p) ∧
        2 ≤ (batchVanityPaths bs).count p) ∧
    ((batchVanityPaths bs).Nodup → ¬ (batchEnvNames bs).Nodup →
      ∃ n, StateBuilder.empty.addBatches bs = .error (.DuplicateEnvName n) ∧
        2 ≤ (batchEnvNames bs).count n) := by
  constructor
  · intro henv hdup
    obtain ⟨p, herr, hcase⟩ := addBatches_file_dup bs StateBuilder.empty henv
      (by intro n _ hmem; exact List.not_mem_nil n hmem) (Or.inl hdup)
    rcases hcase with hcount | ⟨_, hp⟩
    · exact ⟨p, herr, hcount⟩
    · exact absurd hp (List.not_mem_nil p)
  · intro hfile hdup
    obtain ⟨n, herr, hcase⟩ := addBatches_env_dup bs StateBuilder.empty hfile
      (by intro p _ hmem; exact List.not_mem_nil p hmem) (Or.inl hdup)
    rcases hcase with hcount | ⟨_, hn⟩
    · exact ⟨n, herr, hcount⟩
    · exact absurd hn (List.not_mem_nil n)

/-- Witness for C5 at a concrete input: two File specs with vanity path
`/tmp/x` (and two Env specs named `PASS` in the symmetric part). -/
theorem c5_builder_rejects_duplicates_witness :
    (∃ p, StateBuilder.empty.addBatches
        [.files [{ vanity_path := some "/tmp/x" }],
         .files [{ vanity_path := some "/tmp/x" }]]
      = .error (.DuplicatePath p) ∧
      2 ≤ (batchVanityPaths
        [.files [{ vanity_path := some "/tmp/x" }],
         .files [{ vanity_path := some "/tmp/x" }]]).count p) ∧
    (∃ n, StateBuilder.empty.addBatches
        [.envs [{ name := "PASS" }, { name := "PASS" }]]
      = .error (.DuplicateEnvName n) ∧
      2 ≤ (batchEnvNames
        [.envs [{ name := "PASS" }, { name := "PASS" }]]).count n) :=
  ⟨(c5_builder_rejects_duplicates
      [.files [{ vanity_path := some "/tmp/x" }],
       .files [{ vanity_path := some "/tmp/x" }]]).1 (by decide) (by decide),
   (c5_builder_rejects_duplicates
      [.envs [{ name := "PASS" }, { name := "PASS" }]]).2 (by decide) (by decide)⟩

end Credible
